import Mathlib

set_option maxRecDepth 4000

/-!
Shallow embedding of the hepunion (PierreFS) union-filesystem core:
the permission guard, branch resolver and path translator of `helpers.c`,
and the reentrant lock of `recursivemutex.c`.

Paths are modelled as lists of characters (`Str`).  The external
collaborators of the core (attribute accessor, `vfs_lstat`, whiteout
oracle, copy-up engine, effective identity source) and the mount-wide
branch configuration are fields of a context record `Ctx`; the driver
functions are translated from the C sources and, where a decision point
matters to the specification, the resolver additionally records a trace
of the external calls it performed, in order.
-/

abbrev Str := List Char

/- POSIX access-request bits and the per-class shift, as used by helpers.c
   (the macros come from standard headers, not from the repository). -/
def X_OK : Nat := 1
def W_OK : Nat := 2
def R_OK : Nat := 4
def RIGHTS_MASK : Nat := 3

/- Errno values (standard Linux numbers; helpers.c names them via macros). -/
def EACCES : Int := 13
/- helpers.c spells the macro EACCESS inside can_access; same errno. -/
def EACCESS : Int := EACCES
def ENOENT : Int := 2
def ENAMETOOLONG : Int := 36
def ENODATA : Int := 61

/- Resolution outcome codes returned by find_file.  Their header is not in
   the provided sources; any three distinct positive values are faithful,
   since callers and helpers.c distinguish them only from negative errnos
   and from each other. -/
def READ_ONLY : Int := 1
def READ_WRITE : Int := 2
def READ_WRITE_COPYUP : Int := 3

/- Flag bits accepted by find_file.  Their header is not in the provided
   sources; four distinct bits are faithful. -/
def MUST_READ_ONLY : Nat := 1
def MUST_READ_WRITE : Nat := 2
def CREATE_COPYUP : Nat := 4
def IGNORE_WHITEOUT : Nat := 8

def is_flag_set (flags mask : Nat) : Bool := flags &&& mask != 0

/-- File attributes delivered by the external stat accessor
(`struct kstat` as consumed by can_access: mode, owner uid, owner gid).
Per the data model the permission field is the 9-bit rwxrwxrwx value. -/
structure Kstat where
  mode : Nat
  uid : Int
  gid : Int

/-- Mount-wide branch configuration plus the external collaborators
consumed by the core, as oracle functions.  Errors are returned the C
way, as negative integers. -/
structure Ctx where
  ro_root : Str
  rw_root : Str
  path_max : Nat
  euid : Int
  egid : Int
  /-- get_file_attr_worker: union-aware stat; nonzero error propagated. -/
  getattr : Str → Str → Except Int Kstat
  /-- vfs_lstat as used by find_file: only the status is consumed. -/
  lstat : Str → Int
  /-- find_whiteout: 0 means a whiteout entry exists for the union path,
  a negative value means no whiteout was found or an I/O failure. -/
  find_whiteout : Str → Int
  /-- create_copyup status (the materialised writable path is written into
  the caller's buffer by the engine; only the status drives find_file). -/
  create_copyup : Str → Str → Int

/-- First occurrence of a slash, as an index (C strchr). -/
def strchrIdx : Str → Option Nat
  | [] => none
  | c :: cs => if c = '/' then some 0 else (strchrIdx cs).map (fun i => i + 1)

/-- Last occurrence of a slash, as an index (C strrchr). -/
def lastSlashIdx : Str → Option Nat
  | [] => none
  | c :: cs =>
    match lastSlashIdx cs with
    | some i => some (i + 1)
    | none => if c = '/' then some 0 else none

/-- Body of can_access after the attribute fetch (helpers.c lines 24-76):
the superuser special cases, then the shared fall-through code that
shifts the requested bits onto the owner/group/other class selected by
the effective ids and compares bit sets. -/
def can_access_core (euid egid : Int) (stbuf : Kstat) (mode : Nat) : Int :=
  let fallthru : Int :=
    let m :=
      if euid = stbuf.uid then mode <<< (RIGHTS_MASK * 2)
      else if egid = stbuf.gid then mode <<< RIGHTS_MASK
      else mode
    if m &&& stbuf.mode = m then 0 else -EACCESS
  if euid = 0 then
    if mode &&& X_OK ≠ 0 then
      if X_OK &&& stbuf.mode ≠ 0 ∨ (X_OK <<< RIGHTS_MASK) &&& stbuf.mode ≠ 0 ∨
          (X_OK <<< (RIGHTS_MASK * 2)) &&& stbuf.mode ≠ 0 then 0
      else fallthru
    else 0
  else fallthru

/-- can_access from helpers.c: fetch the attributes (propagating any
error), then decide on them with the effective ids. -/
def can_access (ctx : Ctx) (path real_path : Str) (mode : Nat) : Int :=
  match ctx.getattr path real_path with
  | Except.error err => err
  | Except.ok stbuf => can_access_core ctx.euid ctx.egid stbuf mode

/-- can_remove from helpers.c: if the last slash of real_path is its first
character the caller is removing the namespace root (whose branch path is
the branch root, a first-level directory), which is denied outright;
otherwise write access on the parent directory is required.  A real_path
without any slash makes the C call strncpy with a NULL-derived length
(undefined); branch paths always contain a slash, so that case is
unreachable and modelled by an arbitrary fixed value. -/
def can_remove (ctx : Ctx) (path real_path : Str) : Int :=
  match lastSlashIdx real_path with
  | none => 0
  | some k =>
    if k = 0 then -EACCES
    else can_access ctx path (real_path.take k) W_OK

/-- Loop body of can_traverse: repeatedly extend short_path/long_path by
the next path segment, check execute access, and continue with the rest
of the path.  The C while loop is modelled with explicit fuel; the fuel
passed by can_traverse (length of the remaining path plus one) provably
never runs out, since every iteration consumes at least one character or
is the last. -/
def can_traverse_go (ctx : Ctx) : Nat → Str → Str → Str → Nat → Int
  | 0, _, _, _, _ => 0
  | fuel + 1, short_path, long_path, old, seglen =>
    let seg := old.take seglen
    let sp := short_path ++ seg
    let lp := long_path ++ seg
    let err := can_access ctx sp lp X_OK
    if err < 0 then err
    else
      let rest := old.drop seglen
      match strchrIdx (rest.drop 1) with
      | none => 0
      | some j => can_traverse_go ctx fuel sp lp rest (j + 1)

/-- can_traverse from helpers.c.  short_path starts as the root slash and
long_path as the read-only branch root plus a slash (every ancestor check
is made against the read-only branch); a path whose only slash is the
leading one is traversable without any check; otherwise each ancestor
directory between the root and the parent of the final component is
checked for execute access, stopping at the first failure. -/
def can_traverse (ctx : Ctx) (path : Str) : Int :=
  if ctx.ro_root.length + 1 > ctx.path_max then -ENAMETOOLONG
  else if lastSlashIdx path = some 0 then 0
  else
    let old := path.drop 1
    match strchrIdx old with
    | none => 0
    | some i => can_traverse_go ctx (old.length + 1) ['/'] (ctx.ro_root ++ ['/']) old i

/-- Modelled from the spec: make_rw_path (toWritablePath) is not among the
provided sources; per section 4.1 it concatenates the writable branch
root with the union path.  The caller's overflow check compares the
produced length against the maximum. -/
def make_rw_path (ctx : Ctx) (path : Str) : Str := ctx.rw_root ++ path

/-- Modelled from the spec: make_ro_path (toReadOnlyPath), the read-only
counterpart of make_rw_path. -/
def make_ro_path (ctx : Ctx) (path : Str) : Str := ctx.ro_root ++ path

/-- External calls performed by find_file, recorded in order. -/
inductive Ev where
  | stat (p : Str)
  | whiteout (p : Str)
  | traverse (p : Str)
  | copyup (p src : Str)
deriving DecidableEq

/-- Result of find_file: status code, content of the caller's real_path
buffer, and the trace of external calls made. -/
structure FFRes where
  res : Int
  real_path : Str
  trace : List Ev
deriving DecidableEq

/-- Tail of find_file (helpers.c lines 169-228, the copy-up branch):
can_traverse then create_copyup; a failing copy-up status falls through
to the final `return err`. -/
def copyup_cont (ctx : Ctx) (path real_path : Str) (tr : List Ev) : FFRes :=
  let errt := can_traverse ctx path
  let tr := tr ++ [Ev.traverse path]
  if errt < 0 then ⟨errt, real_path, tr⟩
  else
    let errc := ctx.create_copyup path (make_ro_path ctx path)
    let tr := tr ++ [Ev.copyup path (make_ro_path ctx path)]
    if errc = 0 then ⟨READ_WRITE_COPYUP, real_path, tr⟩
    else ⟨errc, real_path, tr⟩

/-- Tail of find_file (helpers.c lines 199-225, the read-only branch):
can_traverse then the READ_ONLY outcome. -/
def ro_cont (ctx : Ctx) (path real_path : Str) (tr : List Ev) : FFRes :=
  let errt := can_traverse ctx path
  let tr := tr ++ [Ev.traverse path]
  if errt < 0 then ⟨errt, real_path, tr⟩
  else ⟨READ_ONLY, real_path, tr⟩

/-- find_file after its writable-branch step (helpers.c lines 168-228):
either the copy-up path (CREATE_COPYUP set: read-only stat, whiteout
consultation whose negative status is propagated, traversal, copy-up) or
the plain read-only path (read-only stat, whiteout hit turned into
-ENOENT, traversal, READ_ONLY). -/
def find_file_tail (ctx : Ctx) (path : Str) (flags : Nat) (real_path0 : Str)
    (tr : List Ev) : FFRes :=
  if is_flag_set flags CREATE_COPYUP then
    if ctx.ro_root.length + path.length > ctx.path_max then
      ⟨-ENAMETOOLONG, real_path0, tr⟩
    else
      let tmp_path := make_ro_path ctx path
      let err := ctx.lstat tmp_path
      let tr := tr ++ [Ev.stat tmp_path]
      if err < 0 then ⟨err, real_path0, tr⟩
      else if ¬ is_flag_set flags IGNORE_WHITEOUT then
        let errw := ctx.find_whiteout path
        let tr := tr ++ [Ev.whiteout path]
        if errw < 0 then ⟨errw, real_path0, tr⟩
        else copyup_cont ctx path real_path0 tr
      else copyup_cont ctx path real_path0 tr
  else
    if ctx.ro_root.length + path.length > ctx.path_max then
      ⟨-ENAMETOOLONG, real_path0, tr⟩
    else
      let real_path := make_ro_path ctx path
      let err := ctx.lstat real_path
      let tr := tr ++ [Ev.stat real_path]
      if err < 0 then ⟨err, real_path, tr⟩
      else if ¬ is_flag_set flags IGNORE_WHITEOUT then
        let errw := ctx.find_whiteout path
        let tr := tr ++ [Ev.whiteout path]
        if errw = 0 then ⟨-ENOENT, real_path, tr⟩
        else ro_cont ctx path real_path tr
      else ro_cont ctx path real_path tr

/-- find_file from helpers.c.  Unless MUST_READ_ONLY: form the writable
branch path (length-checked before the stat), stat it; on stat failure
either propagate (MUST_READ_WRITE) or fall through to the tail; on stat
success check traversal and return READ_WRITE with the writable path. -/
def find_file (ctx : Ctx) (path : Str) (flags : Nat) : FFRes :=
  if ¬ is_flag_set flags MUST_READ_ONLY then
    if ctx.rw_root.length + path.length > ctx.path_max then ⟨-ENAMETOOLONG, [], []⟩
    else
      let real_path := make_rw_path ctx path
      let err := ctx.lstat real_path
      let tr : List Ev := [Ev.stat real_path]
      if err < 0 then
        if is_flag_set flags MUST_READ_WRITE then ⟨err, real_path, tr⟩
        else find_file_tail ctx path flags real_path tr
      else
        let errt := can_traverse ctx path
        let tr := tr ++ [Ev.traverse path]
        if errt < 0 then ⟨errt, real_path, tr⟩
        else ⟨READ_WRITE, real_path, tr⟩
  else find_file_tail ctx path flags [] []

/-- n bytes read from an indeterminate source (uninitialized or
out-of-bounds storage in the C), supplied by an oracle function so that
results hold for every possible content. -/
def junkList (f : Nat → Char) (n : Nat) : Str := (List.range n).map f

/-- Loop of get_full_path (helpers.c lines 251-260): walk the ancestry
chain from the entry towards the root, each step subtracting the
component length plus one from the remaining-space count buflen,
aborting with -ENAMETOOLONG when it goes negative, and otherwise
prepending slash-then-name at the back of the buffer.  `acc` is the
written tail of tmp_path, from `end` to the end of the buffer. -/
def get_full_path_loop : List Str → Str → Int → Except Int (Str × Int)
  | [], acc, buflen => Except.ok (acc, buflen)
  | name :: rest, acc, buflen =>
    let buflen := buflen - (name.length + 1)
    if buflen < 0 then Except.error (-ENAMETOOLONG)
    else get_full_path_loop rest ('/' :: (name ++ acc)) buflen

/-- get_full_path from helpers.c lines 232-276, over the entry's dentry
name chain (leaf first; the C walk stops at IS_ROOT, and the function is
reached with a representative dentry already selected and its nlink
assertion satisfied).  The buffer is written back to front: a NUL first,
then slash-and-name per ancestor.  After the loop the C subtracts one
more from buflen, moves `end` back by `namelen` — stale from the last
loop iteration, so the root-most component's length, or uninitialized
(namelen0) when the chain is empty — and memcpy's that many bytes from
the two-byte string literal holding one slash; bytes past the literal
and, in the final copy of buflen bytes into the out-parameter, bytes
past the end of tmp_path are indeterminate reads, supplied by oobLit and
oobBuf.  The undeclared identifier `path` of the final memcpy can only
denote the out-parameter real_path.  Like the C, the function returns
buflen — the leftover buffer space, not the produced path's length —
together with the copied buffer content. -/
def get_full_path (max_path : Nat) (chain : List Str) (namelen0 : Nat)
    (oobLit oobBuf : Nat → Char) : Except Int (Int × Str) :=
  match get_full_path_loop chain ['\x00'] ((max_path : Int) - 1) with
  | Except.error e => Except.error e
  | Except.ok (acc, buflen0) =>
    let buflen := buflen0 - 1
    if buflen < 0 then Except.error (-ENAMETOOLONG)
    else
      let namelen := (chain.getLast?.map (fun s => s.length)).getD namelen0
      let pre := ('/' :: '\x00' :: junkList oobLit namelen).take namelen
      let real_path := ((pre ++ acc) ++ junkList oobBuf buflen.toNat).take buflen.toNat
      Except.ok (buflen, real_path)

/-- get_relative_path from helpers.c lines 278-302: reconstruct the full
path of the entry via get_full_path (propagating a negative length),
then strip the read-only branch root if it is a byte-exact prefix of the
buffer (strncmp over roots containing no NUL), else the writable root,
skipping one further character past the root (`real_path + 1 + len`),
else fail with -ENODATA.  The memcpy count is the C int expression
len - 1 - root-length; a negative count converted to size_t is undefined
in C and clamped here by toNat. -/
def get_relative_path (ctx : Ctx) (chain : List Str) (namelen0 : Nat)
    (oobLit oobBuf : Nat → Char) : Except Int Str :=
  match get_full_path ctx.path_max chain namelen0 oobLit oobBuf with
  | Except.error len => Except.error len
  | Except.ok (len, real_path) =>
    if real_path.take ctx.ro_root.length = ctx.ro_root then
      Except.ok ((real_path.drop (1 + ctx.ro_root.length)).take
        (len - 1 - (ctx.ro_root.length : Int)).toNat)
    else if real_path.take ctx.rw_root.length = ctx.rw_root then
      Except.ok ((real_path.drop (1 + ctx.rw_root.length)).take
        (len - 1 - (ctx.rw_root.length : Int)).toNat)
    else Except.error (-ENODATA)

/-! ## Reentrant lock (recursivemutex.c)

The mutex state carries the atomic reference count, whether the
underlying spin lock is taken, and the recorded owner.  Thread identities
(`task_thread_info`) are modelled as naturals.  `recursive_mutex_lock`
additionally reports whether the calling thread executed `spin_lock`
while the underlying lock was already taken, i.e. whether the call
blocked waiting for the lock; its state component describes the state
once the call completes (after winning the lock, in the contended case). -/

structure RMutex where
  count : Int
  lock : Bool
  owner : Option Nat
deriving DecidableEq

/-- recursive_mutex_init: count 0, lock free, no owner. -/
def recursive_mutex_init : RMutex := ⟨0, false, none⟩

/-- recursive_mutex_lock by thread t.  First component: whether the call
reached spin_lock with the lock already taken (blocking).  The owner is
written only on the count 0-to-1 path, exactly as in the C source. -/
def recursive_mutex_lock (t : Nat) (m : RMutex) : Bool × RMutex :=
  let count := m.count + 1
  if count = 1 then
    (m.lock, ⟨count, true, some t⟩)
  else
    if m.owner ≠ some t then (m.lock, ⟨count, true, m.owner⟩)
    else (false, ⟨count, m.lock, m.owner⟩)

/-- recursive_mutex_unlock: decrement; on reaching zero clear the owner
and release the underlying lock. -/
def recursive_mutex_unlock (m : RMutex) : RMutex :=
  let count := m.count - 1
  if count = 0 then ⟨count, false, none⟩
  else ⟨count, m.lock, m.owner⟩

/-- n successive acquisitions by thread t: whether any of them blocked,
and the resulting state. -/
def lockN (t : Nat) : Nat → RMutex → Bool × RMutex
  | 0, m => (false, m)
  | n + 1, m =>
    let r := recursive_mutex_lock t m
    let r2 := lockN t n r.2
    (r.1 || r2.1, r2.2)

/-- n successive releases. -/
def unlockN : Nat → RMutex → RMutex
  | 0, m => m
  | n + 1, m => unlockN n (recursive_mutex_unlock m)

/-! ## Concrete contexts used by witnesses and counterexamples -/

/-- Context exercising the copy-up path: the file is absent from the
writable branch, present in the read-only branch, and whiteout-marked. -/
def ctx2 : Ctx :=
  { ro_root := "/ro".toList
    rw_root := "/rw".toList
    path_max := 100
    euid := 0
    egid := 0
    getattr := fun _ _ => Except.ok ⟨511, 0, 0⟩
    lstat := fun p => if p = "/rw/f".toList then -ENOENT else 0
    find_whiteout := fun _ => 0
    create_copyup := fun _ _ => 0 }

/-- Context in which every stat succeeds and nothing is whiteout-marked. -/
def ctx1 : Ctx :=
  { ro_root := "/ro".toList
    rw_root := "/rw".toList
    path_max := 100
    euid := 0
    egid := 0
    getattr := fun _ _ => Except.ok ⟨511, 0, 0⟩
    lstat := fun _ => 0
    find_whiteout := fun _ => -ENOENT
    create_copyup := fun _ _ => 0 }

/-! ## C1: a writable-branch hit always wins -/

/-- C1: for a union path present in the writable branch (the writable
stat succeeds) and flags not containing MUST_READ_ONLY, find_file
returns READ_WRITE paired with the writable branch path, whatever the
read-only branch, whiteout oracle and copy-up engine would say, provided
can_traverse succeeds. -/
theorem c1_find_file_rw_wins (ctx : Ctx) (path : Str) (flags : Nat)
    (hflag : is_flag_set flags MUST_READ_ONLY = false)
    (hlen : ctx.rw_root.length + path.length ≤ ctx.path_max)
    (hstat : 0 ≤ ctx.lstat (make_rw_path ctx path))
    (htrav : can_traverse ctx path = 0) :
    (find_file ctx path flags).res = READ_WRITE ∧
      (find_file ctx path flags).real_path = make_rw_path ctx path := by
  have h1 : ¬ (ctx.rw_root.length + path.length > ctx.path_max) := by omega
  have h2 : ¬ (ctx.lstat (make_rw_path ctx path) < 0) := by omega
  simp [find_file, hflag, h1, h2, htrav]

/-- Witness for C1 at a concrete context, path and flag set. -/
theorem c1_witness :
    (find_file ctx1 ("/a".toList) 0).res = READ_WRITE ∧
      (find_file ctx1 ("/a".toList) 0).real_path = make_rw_path ctx1 ("/a".toList) :=
  c1_find_file_rw_wins ctx1 ("/a".toList) 0 (by decide) (by decide) (by decide) (by decide)

/-! ## C2: whiteout handling on the copy-up path (code bug) -/

/-- C2: the claim (and section 4.3 of the specification) requires a
whiteout hit on the copy-up path to be treated as not-found without
invoking the copy-up engine.  The code does the opposite: find_whiteout
returning 0 (whiteout present) lets the resolution proceed and the
copy-up engine is invoked, yielding READ_WRITE_COPYUP, while the
negative no-whiteout status would have been propagated as an error.
This theorem evaluates find_file at the failing input. -/
theorem c2_whiteout_copyup_bug :
    ctx2.find_whiteout ("/f".toList) = 0 ∧
      (find_file ctx2 ("/f".toList) CREATE_COPYUP).res = READ_WRITE_COPYUP ∧
      Ev.copyup ("/f".toList) ("/ro/f".toList) ∈
        (find_file ctx2 ("/f".toList) CREATE_COPYUP).trace := by
  decide

/-! ## C3: whiteout-marked read-only files are not found -/

/-- C3: for a union path absent from the writable branch (its stat fails
with -ENOENT), present in the read-only branch and whiteout-marked,
find_file without IGNORE_WHITEOUT and without CREATE_COPYUP returns
-ENOENT, and no traversal check is performed (the whiteout hit is
detected first), for every setting of the remaining flags. -/
theorem c3_whiteout_not_found (ctx : Ctx) (path : Str) (flags : Nat)
    (hcu : is_flag_set flags CREATE_COPYUP = false)
    (hiw : is_flag_set flags IGNORE_WHITEOUT = false)
    (hlenrw : ctx.rw_root.length + path.length ≤ ctx.path_max)
    (hlenro : ctx.ro_root.length + path.length ≤ ctx.path_max)
    (habs : ctx.lstat (make_rw_path ctx path) = -ENOENT)
    (hro : 0 ≤ ctx.lstat (make_ro_path ctx path))
    (hwh : ctx.find_whiteout path = 0) :
    (find_file ctx path flags).res = -ENOENT ∧
      ∀ p, Ev.traverse p ∉ (find_file ctx path flags).trace := by
  have h1 : ¬ (ctx.rw_root.length + path.length > ctx.path_max) := by omega
  have h2 : ¬ (ctx.ro_root.length + path.length > ctx.path_max) := by omega
  have h3 : ctx.lstat (make_rw_path ctx path) < 0 := by
    rw [habs]; simp [ENOENT]
  have h4 : ¬ (ctx.lstat (make_ro_path ctx path) < 0) := by omega
  by_cases hmr : is_flag_set flags MUST_READ_ONLY
  · simp [find_file, hmr, find_file_tail, hcu, h2, h4, hiw, hwh]
  · by_cases hmw : is_flag_set flags MUST_READ_WRITE
    · simp [find_file, hmr, h1, h3, hmw]
      exact habs
    · simp [find_file, hmr, h1, h3, hmw, find_file_tail, hcu, h2, h4, hiw, hwh]

/-- Witness for C3 at a concrete context, path and flag set. -/
theorem c3_witness :
    (find_file ctx2 ("/f".toList) 0).res = -ENOENT ∧
      ∀ p, Ev.traverse p ∉ (find_file ctx2 ("/f".toList) 0).trace :=
  c3_whiteout_not_found ctx2 ("/f".toList) 0 (by decide) (by decide) (by decide)
    (by decide) (by decide) (by decide) (by decide)

/-! ## C6: can_remove -/

/-- C6: when the last slash of real_path is its leading character —
the shape of the namespace root's branch path, the branch root itself —
can_remove denies outright with -EACCES, touching none of the context's
oracles (the context appears only in the other branch); for every other
branch path it returns exactly can_access with W_OK on the parent
directory (the prefix before the last slash). -/
theorem c6_can_remove (ctx : Ctx) (path real_path : Str) (k : Nat)
    (h : lastSlashIdx real_path = some k) :
    (k = 0 → can_remove ctx path real_path = -EACCES) ∧
      (0 < k → can_remove ctx path real_path =
        can_access ctx path (real_path.take k) W_OK) := by
  unfold can_remove
  rw [h]
  constructor
  · intro hk; simp [hk]
  · intro hk
    have hne : ¬ k = 0 := by omega
    simp [hne]

/-- Witness for C6 at the branch root and at a deeper branch path. -/
theorem c6_witness :
    (can_remove ctx1 ("/a".toList) ("/rw".toList) = -EACCES) ∧
      can_remove ctx1 ("/a".toList) ("/rw/a".toList) =
        can_access ctx1 ("/a".toList) (("/rw/a".toList).take 3) W_OK :=
  ⟨(c6_can_remove ctx1 ("/a".toList) ("/rw".toList) 0 (by decide)).1 rfl,
   (c6_can_remove ctx1 ("/a".toList) ("/rw/a".toList) 3 (by decide)).2 (by omega)⟩

/-! ## C9: N lock / N unlock by a single thread -/

/-- Re-entries by the owner: with the lock held and owned by t, n further
acquisitions never block and only raise the counter. -/
theorem lockN_held (t : Nat) (n : Nat) : ∀ k : Int, 1 ≤ k →
    lockN t n ⟨k, true, some t⟩ = (false, ⟨k + n, true, some t⟩) := by
  induction n with
  | zero => intro k hk; simp [lockN]
  | succ n ih =>
    intro k hk
    have hne : ¬ (k + 1 = 1) := by omega
    have hstep : recursive_mutex_lock t ⟨k, true, some t⟩ = (false, ⟨k + 1, true, some t⟩) := by
      simp [recursive_mutex_lock, hne]
    simp only [lockN, hstep]
    rw [ih (k + 1) (by omega)]
    simp [Prod.ext_iff, RMutex.mk.injEq]
    omega

/-- From the free state, n+1 acquisitions by t never block: the first
takes the underlying lock and records t, the rest take the fast path. -/
theorem lockN_init (t : Nat) (n : Nat) :
    lockN t (n + 1) recursive_mutex_init = (false, ⟨(n : Int) + 1, true, some t⟩) := by
  have hstep : recursive_mutex_lock t recursive_mutex_init = (false, ⟨1, true, some t⟩) := by
    simp [recursive_mutex_lock, recursive_mutex_init]
  simp only [lockN, hstep]
  rw [lockN_held t n 1 (by omega)]
  simp [Prod.ext_iff, RMutex.mk.injEq]
  omega

/-- n matching releases land back on the free state. -/
theorem unlockN_full (t : Nat) : ∀ n : Nat, 1 ≤ n →
    unlockN n ⟨(n : Int), true, some t⟩ = recursive_mutex_init := by
  intro n
  induction n with
  | zero => intro h; exact absurd h (by omega)
  | succ n ih =>
    intro _
    rcases Nat.eq_zero_or_pos n with hn | hn
    · subst hn
      simp [unlockN, recursive_mutex_unlock, recursive_mutex_init]
    · have hne : ¬ ((n : Int) = 0) := by omega
      have hcast : ((n + 1 : Nat) : Int) - 1 = (n : Int) := by push_cast; ring
      have hstep : recursive_mutex_unlock ⟨((n + 1 : Nat) : Int), true, some t⟩ =
          ⟨(n : Int), true, some t⟩ := by
        simp [recursive_mutex_unlock, hcast, hne]
      simp only [unlockN, hstep]
      exact ih hn

/-- C9: for every N at least 1, a single thread t acquiring the lock N
times from the free state never blocks (the first acquisition takes the
free underlying lock, the re-entries hit the owner-equality fast path),
reaches the state counter N / lock taken / owner t, and N releases leave
the lock free again: counter zero, owner cleared, underlying lock
released. -/
theorem c9_reentrant_lock (t : Nat) (N : Nat) (h : 1 ≤ N) :
    (lockN t N recursive_mutex_init).1 = false ∧
      (lockN t N recursive_mutex_init).2 = ⟨(N : Int), true, some t⟩ ∧
      unlockN N (lockN t N recursive_mutex_init).2 = recursive_mutex_init := by
  obtain ⟨n, rfl⟩ : ∃ n, N = n + 1 := ⟨N - 1, by omega⟩
  have hc : ((n : Int) + 1) = ((n + 1 : Nat) : Int) := by push_cast; ring
  rw [lockN_init, hc]
  exact ⟨rfl, rfl, unlockN_full t (n + 1) (by omega)⟩

/-- Witness for C9 at N = 3 acquisitions by thread 5. -/
theorem c9_witness :
    (lockN 5 3 recursive_mutex_init).1 = false ∧
      (lockN 5 3 recursive_mutex_init).2 = ⟨((3 : Nat) : Int), true, some 5⟩ ∧
      unlockN 3 (lockN 5 3 recursive_mutex_init).2 = recursive_mutex_init :=
  c9_reentrant_lock 5 3 (by omega)

/-! ## C10: owner not rewritten on the contention path (code bug) -/

/-- C10: the claim (and section 4.4 of the specification) requires the
owner field to be rewritten to the winning thread whenever a thread newly
obtains the underlying lock, including after blocking in contention.
The code only writes the owner on the count 0-to-1 path.  Evaluation at
the failing input: thread 2 calls acquire while thread 1 holds the lock
(count 1, owner thread 1); the call blocks on the underlying lock and,
once it completes, the owner field still names thread 1, so thread 2 now
genuinely holds the underlying lock while not being the recorded owner —
and thread 2's own recursive re-entry blocks on itself. -/
theorem c10_owner_not_rewritten_bug :
    (recursive_mutex_lock 2 ⟨1, true, some 1⟩).1 = true ∧
      ((recursive_mutex_lock 2 ⟨1, true, some 1⟩).2).owner = some 1 ∧
      ((recursive_mutex_lock 2 ⟨1, true, some 1⟩).2).lock = true ∧
      (recursive_mutex_lock 2 ((recursive_mutex_lock 2 ⟨1, true, some 1⟩).2)).1 = true := by
  decide

/-! ## C4: can_access against the section 4.2 contract -/

/-- Specification-side predicate (section 4.2): at least one of the three
permission triplets of a 9-bit mode has its execute bit set. -/
abbrev anyExec (m : Nat) : Prop :=
  (m >>> 6) &&& 1 ≠ 0 ∨ (m >>> 3) &&& 1 ≠ 0 ∨ m &&& 1 ≠ 0

/-- Specification-side triplet selection (section 4.2): the owner triplet
when the effective uid matches the entry's owner, else the group triplet
when the effective gid matches, else the other triplet. -/
def selectTriplet (euid egid : Int) (st : Kstat) : Nat :=
  if euid = st.uid then (st.mode >>> 6) &&& 7
  else if egid = st.gid then (st.mode >>> 3) &&& 7
  else st.mode &&& 7

/-- Specification-side access decision, written from the words of
section 4.2: the superuser's execute requests are granted iff some
triplet is executable and its other requests unconditionally; everyone
else is granted iff the selected triplet contains every requested bit;
the only outcomes are full grant and -EACCES. -/
def can_access_spec (euid egid : Int) (st : Kstat) (mode : Nat) : Int :=
  if euid = 0 then
    if mode &&& X_OK ≠ 0 then
      if anyExec st.mode then 0 else -EACCES
    else 0
  else
    if mode &&& selectTriplet euid egid st = mode then 0 else -EACCES

/-- The driver's any-execute test coincides with the per-triplet one. -/
theorem exec_any_equiv : ∀ M < 512,
    ((X_OK &&& M ≠ 0) ∨ ((X_OK <<< RIGHTS_MASK) &&& M ≠ 0) ∨
      ((X_OK <<< (RIGHTS_MASK * 2)) &&& M ≠ 0)) ↔ anyExec M := by
  decide

/-- Shifting the request onto the owner class and masking against the
whole mode is the same as testing containment in the owner triplet. -/
theorem and_shift_owner : ∀ M < 512, ∀ m < 8,
    ((m <<< (RIGHTS_MASK * 2)) &&& M = m <<< (RIGHTS_MASK * 2)) ↔
      (m &&& ((M >>> 6) &&& 7) = m) := by
  decide

/-- Group-class counterpart of and_shift_owner. -/
theorem and_shift_group : ∀ M < 512, ∀ m < 8,
    ((m <<< RIGHTS_MASK) &&& M = m <<< RIGHTS_MASK) ↔
      (m &&& ((M >>> 3) &&& 7) = m) := by
  decide

/-- Other-class counterpart of and_shift_owner (no shift). -/
theorem and_shift_other : ∀ M < 512, ∀ m < 8,
    (m &&& M = m) ↔ (m &&& (M &&& 7) = m) := by
  decide

/-- An execute request can never pass the fall-through comparison of a
mode with no execute bit in any triplet, whichever class is selected
(stated disjunctively to stay within decidable connectives). -/
theorem exec_deny : ∀ M < 512, ∀ m < 8,
    m &&& X_OK = 0 ∨ anyExec M ∨
      (¬ ((m <<< (RIGHTS_MASK * 2)) &&& M = m <<< (RIGHTS_MASK * 2)) ∧
        ¬ ((m <<< RIGHTS_MASK) &&& M = m <<< RIGHTS_MASK) ∧ ¬ (m &&& M = m)) := by
  decide

/-- Core of C4: the post-stat decision coincides with the
specification-side decision for 9-bit modes and 3-bit requests. -/
theorem can_access_core_spec (euid egid : Int) (st : Kstat) (mode : Nat)
    (hm9 : st.mode < 512) (hmode : mode < 8) :
    can_access_core euid egid st mode = can_access_spec euid egid st mode := by
  simp only [can_access_core, can_access_spec]
  by_cases h0 : euid = 0
  · subst h0
    simp only [if_pos (show (0 : Int) = 0 from rfl), if_true]
    by_cases hx : mode &&& X_OK ≠ 0
    · simp only [if_pos hx]
      by_cases hany : anyExec st.mode
      · simp only [if_pos ((exec_any_equiv st.mode hm9).mpr hany), if_pos hany]
      · have hc : ¬ (X_OK &&& st.mode ≠ 0 ∨ (X_OK <<< RIGHTS_MASK) &&& st.mode ≠ 0 ∨
            (X_OK <<< (RIGHTS_MASK * 2)) &&& st.mode ≠ 0) :=
          fun h => hany ((exec_any_equiv st.mode hm9).mp h)
        simp only [if_neg hc, if_neg hany]
        rcases exec_deny st.mode hm9 mode hmode with hdx | hda | ⟨hd6, hd3, hd0⟩
        · exact absurd hdx hx
        · exact absurd hda hany
        · by_cases hu : (0 : Int) = st.uid
          · simp only [if_pos hu, if_neg hd6]
            rfl
          · by_cases hg : egid = st.gid
            · simp only [if_neg hu, if_pos hg, if_neg hd3]
              rfl
            · simp only [if_neg hu, if_neg hg, if_neg hd0]
              rfl
    · simp only [if_neg hx]
  · simp only [if_neg h0, selectTriplet]
    by_cases hu : euid = st.uid
    · have hiff := and_shift_owner st.mode hm9 mode hmode
      simp only [if_pos hu]
      by_cases hcmp : mode &&& ((st.mode >>> 6) &&& 7) = mode
      · simp only [if_pos (hiff.mpr hcmp), if_pos hcmp]
      · simp only [if_neg (fun h => hcmp (hiff.mp h)), if_neg hcmp]
        rfl
    · by_cases hg : egid = st.gid
      · have hiff := and_shift_group st.mode hm9 mode hmode
        simp only [if_neg hu, if_pos hg]
        by_cases hcmp : mode &&& ((st.mode >>> 3) &&& 7) = mode
        · simp only [if_pos (hiff.mpr hcmp), if_pos hcmp]
        · simp only [if_neg (fun h => hcmp (hiff.mp h)), if_neg hcmp]
          rfl
      · have hiff := and_shift_other st.mode hm9 mode hmode
        simp only [if_neg hu, if_neg hg]
        by_cases hcmp : mode &&& (st.mode &&& 7) = mode
        · simp only [if_pos (hiff.mpr hcmp), if_pos hcmp]
        · simp only [if_neg (fun h => hcmp (hiff.mp h)), if_neg hcmp]
          rfl

/-- C4: when the stat succeeds, can_access computes exactly the section
4.2 decision can_access_spec: superuser execute requests are granted iff
at least one triplet of the entry's mode has the execute bit (requests
without the execute bit unconditionally); any other user gets
all-or-nothing containment of the requested bits in the owner/group/other
triplet selected with uid-then-gid precedence, and the only outcomes are
the full grant and -EACCES. -/
theorem c4_can_access_matches_spec (ctx : Ctx) (path real_path : Str)
    (mode : Nat) (st : Kstat)
    (hst : ctx.getattr path real_path = Except.ok st)
    (hm9 : st.mode < 512) (hmode : mode < 8) :
    can_access ctx path real_path mode =
      can_access_spec ctx.euid ctx.egid st mode := by
  simp only [can_access, hst]
  exact can_access_core_spec ctx.euid ctx.egid st mode hm9 hmode

/-- Context for the C4 witness: an ordinary user and a mode-0756 entry. -/
def ctx4 : Ctx :=
  { ro_root := "/ro".toList
    rw_root := "/rw".toList
    path_max := 100
    euid := 1000
    egid := 1000
    getattr := fun _ _ => Except.ok ⟨494, 1000, 1000⟩
    lstat := fun _ => 0
    find_whiteout := fun _ => -ENOENT
    create_copyup := fun _ _ => 0 }

/-- Witness for C4 at a concrete context, entry and request. -/
theorem c4_witness :
    can_access ctx4 ("/a".toList) ("/ro/a".toList) 6 =
      can_access_spec ctx4.euid ctx4.egid ⟨494, 1000, 1000⟩ 6 :=
  c4_can_access_matches_spec ctx4 ("/a".toList) ("/ro/a".toList) 6 ⟨494, 1000, 1000⟩
    rfl (by decide) (by decide)

/-! ## C5: can_traverse checks exactly the ancestors, on the read-only branch -/

/-- Union path with a leading slash built from a component list. -/
def mkPath : List Str → Str
  | [] => []
  | c :: cs => '/' :: (c ++ mkPath cs)

/-- Specification-side traversal (section 4.2): check execute access with
can_access on every ancestor directory strictly between the root and the
final component, each evaluated against the read-only branch, returning
the first failure. -/
def ancestorErr (ctx : Ctx) (pref : Str) : List Str → Int
  | [] => 0
  | [_] => 0
  | c :: cs =>
    let p := pref ++ '/' :: c
    let e := can_access ctx p (ctx.ro_root ++ p) X_OK
    if e < 0 then e else ancestorErr ctx p cs

theorem strchrIdx_noSlash (c : Str) (hc : '/' ∉ c) : strchrIdx c = none := by
  induction c with
  | nil => rfl
  | cons a as ih =>
    rw [List.mem_cons] at hc
    push_neg at hc
    simp [strchrIdx, Ne.symm hc.1, ih hc.2]

theorem strchrIdx_append_slash (c r : Str) (hc : '/' ∉ c) :
    strchrIdx (c ++ '/' :: r) = some c.length := by
  induction c with
  | nil => simp [strchrIdx]
  | cons a as ih =>
    rw [List.mem_cons] at hc
    push_neg at hc
    simp [strchrIdx, Ne.symm hc.1, ih hc.2]

theorem lastSlashIdx_noSlash (c : Str) (hc : '/' ∉ c) : lastSlashIdx c = none := by
  induction c with
  | nil => rfl
  | cons a as ih =>
    rw [List.mem_cons] at hc
    push_neg at hc
    simp [lastSlashIdx, ih hc.2, Ne.symm hc.1]

theorem lastSlashIdx_cons_some (x : Char) (t : Str) (i : Nat)
    (h : lastSlashIdx t = some i) : lastSlashIdx (x :: t) = some (i + 1) := by
  rw [lastSlashIdx, h]

theorem lastSlashIdx_append (a b : Str) (j : Nat) (hb : lastSlashIdx b = some j) :
    lastSlashIdx (a ++ b) = some (a.length + j) := by
  induction a with
  | nil => simpa using hb
  | cons x xs ih =>
    rw [List.cons_append, lastSlashIdx_cons_some x (xs ++ b) (xs.length + j) ih]
    simp only [List.length_cons, Option.some.injEq]
    omega

theorem lastSlashIdx_mkPath_cons (c : Str) (cs : List Str) :
    ∃ j, lastSlashIdx (mkPath (c :: cs)) = some j := by
  cases h : lastSlashIdx (c ++ mkPath cs) with
  | none => exact ⟨0, by simp [mkPath, lastSlashIdx, h]⟩
  | some i => exact ⟨i + 1, by simp [mkPath, lastSlashIdx, h]⟩

/-- Loop lemma: once the walk is positioned at a slash-led segment, the
remaining iterations compute exactly the remaining ancestor checks. -/
theorem can_traverse_go_spec (ctx : Ctx) (cs : List Str) :
    ∀ (c : Str) (sp : Str) (fuel : Nat), '/' ∉ c → (∀ d ∈ cs, '/' ∉ d) → cs ≠ [] →
      ('/' :: (c ++ mkPath cs)).length ≤ fuel →
      can_traverse_go ctx fuel sp (ctx.ro_root ++ sp) ('/' :: (c ++ mkPath cs)) (c.length + 1)
        = ancestorErr ctx sp (c :: cs) := by
  induction cs with
  | nil => intro c sp fuel _ _ hne _; exact absurd rfl hne
  | cons c2 cs' ih =>
    intro c sp fuel hc hcs _ hfuel
    obtain ⟨f, rfl⟩ : ∃ f, fuel = f + 1 := by
      refine ⟨fuel - 1, ?_⟩
      simp only [List.length_cons] at hfuel
      omega
    have hc2 : '/' ∉ c2 := hcs c2 (by simp)
    have htake : ('/' :: (c ++ mkPath (c2 :: cs'))).take (c.length + 1) = '/' :: c := by
      have h1 : ('/' :: c).length = c.length + 1 := by simp
      calc ('/' :: (c ++ mkPath (c2 :: cs'))).take (c.length + 1)
          = (('/' :: c) ++ mkPath (c2 :: cs')).take (c.length + 1) := rfl
        _ = '/' :: c := List.take_left' h1
    have hdrop : ('/' :: (c ++ mkPath (c2 :: cs'))).drop (c.length + 1) = mkPath (c2 :: cs') := by
      have h1 : ('/' :: c).length = c.length + 1 := by simp
      calc ('/' :: (c ++ mkPath (c2 :: cs'))).drop (c.length + 1)
          = (('/' :: c) ++ mkPath (c2 :: cs')).drop (c.length + 1) := rfl
        _ = mkPath (c2 :: cs') := List.drop_left' h1
    cases cs' with
    | nil =>
      have hrest1 : (mkPath [c2]).drop 1 = c2 := by simp [mkPath]
      have hs : strchrIdx c2 = none := strchrIdx_noSlash c2 hc2
      simp only [can_traverse_go, htake, hdrop, hrest1, hs, ancestorErr,
        List.append_assoc]
    | cons c3 cs'' =>
      have hm : mkPath (c2 :: c3 :: cs'') = '/' :: (c2 ++ mkPath (c3 :: cs'')) := rfl
      have hrest1 : (mkPath (c2 :: c3 :: cs'')).drop 1 = c2 ++ mkPath (c3 :: cs'') := by
        rw [hm]; rfl
      have hs : strchrIdx (c2 ++ mkPath (c3 :: cs'')) = some c2.length := by
        rw [show mkPath (c3 :: cs'') = '/' :: (c3 ++ mkPath cs'') from rfl]
        exact strchrIdx_append_slash c2 (c3 ++ mkPath cs'') hc2
      have hih := ih c2 (sp ++ '/' :: c) f hc2
        (fun d hd => hcs d (List.mem_cons_of_mem c2 hd)) (by simp)
        (by
          rw [hm] at hfuel
          simp only [List.length_cons, List.length_append] at hfuel ⊢
          omega)
      simp only [can_traverse_go, htake, hdrop, hrest1, hs, List.append_assoc]
      rw [hm, hih]
      simp only [ancestorErr, List.append_assoc]

/-- C5: on a well-formed union path (leading slash, slash-free
components), can_traverse computes exactly the specification-side
ancestor walk: it checks execute access via can_access on each successive
ancestor from the first-level directory down to the parent of the final
component, every check evaluated against the read-only branch's metadata
(branch root prepended), succeeds with no check at all when the only
slash is the leading one (the root itself or a direct child of root),
and short-circuits at the first failure. -/
theorem c5_can_traverse_ancestors (ctx : Ctx) (cs : List Str)
    (hro : ctx.ro_root.length + 1 ≤ ctx.path_max)
    (hcs : ∀ c ∈ cs, '/' ∉ c) :
    can_traverse ctx (mkPath cs) = ancestorErr ctx [] cs := by
  have hroneg : ¬ (ctx.ro_root.length + 1 > ctx.path_max) := by omega
  cases cs with
  | nil => simp [can_traverse, hroneg, mkPath, lastSlashIdx, strchrIdx, ancestorErr]
  | cons c cs' =>
    cases cs' with
    | nil =>
      have h0 : lastSlashIdx c = none := lastSlashIdx_noSlash c (hcs c (by simp))
      have h1 : lastSlashIdx (mkPath [c]) = some 0 := by
        simp [mkPath, lastSlashIdx, h0]
      simp [can_traverse, hroneg, h1, ancestorErr]
    | cons c2 cs'' =>
      obtain ⟨j, hj⟩ := lastSlashIdx_mkPath_cons c2 cs''
      have hsplit : mkPath (c :: c2 :: cs'') = ('/' :: c) ++ mkPath (c2 :: cs'') := rfl
      have hlast : lastSlashIdx (mkPath (c :: c2 :: cs'')) = some (c.length + 1 + j) := by
        rw [hsplit, lastSlashIdx_append _ _ j hj]
        simp only [List.length_cons]
      have hne : ¬ (lastSlashIdx (mkPath (c :: c2 :: cs'')) = some 0) := by
        rw [hlast]; simp
      have hold : (mkPath (c :: c2 :: cs'')).drop 1 = c ++ mkPath (c2 :: cs'') := rfl
      have hchr : strchrIdx (c ++ mkPath (c2 :: cs'')) = some c.length := by
        rw [show mkPath (c2 :: cs'') = '/' :: (c2 ++ mkPath cs'') from rfl]
        exact strchrIdx_append_slash c (c2 ++ mkPath cs'') (hcs c (by simp))
      have htake : (c ++ mkPath (c2 :: cs'')).take c.length = c := List.take_left c _
      have hdrop : (c ++ mkPath (c2 :: cs'')).drop c.length = mkPath (c2 :: cs'') :=
        List.drop_left c _
      simp only [can_traverse, if_neg hroneg, if_neg hne, hold, hchr]
      cases cs'' with
      | nil =>
        have hrest1 : (mkPath [c2]).drop 1 = c2 := by simp [mkPath]
        have hs : strchrIdx c2 = none := strchrIdx_noSlash c2 (hcs c2 (by simp))
        simp only [can_traverse_go, htake, hdrop, hrest1, hs, ancestorErr,
          List.append_assoc, List.singleton_append, List.nil_append]
      | cons c3 cs''' =>
        have hm : mkPath (c2 :: c3 :: cs''') = '/' :: (c2 ++ mkPath (c3 :: cs''')) := rfl
        have hrest1 : (mkPath (c2 :: c3 :: cs''')).drop 1 = c2 ++ mkPath (c3 :: cs''') := by
          rw [hm]; rfl
        have hs : strchrIdx (c2 ++ mkPath (c3 :: cs''')) = some c2.length := by
          rw [show mkPath (c3 :: cs''') = '/' :: (c3 ++ mkPath cs''') from rfl]
          exact strchrIdx_append_slash c2 (c3 ++ mkPath cs''') (hcs c2 (by simp))
        have hih := can_traverse_go_spec ctx (c3 :: cs''') c2 ('/' :: c)
          ((c ++ mkPath (c2 :: c3 :: cs''')).length) (hcs c2 (by simp))
          (fun d hd => hcs d (List.mem_cons_of_mem c (List.mem_cons_of_mem c2 hd)))
          (by simp)
          (by
            rw [hm]
            simp only [List.length_cons, List.length_append]
            omega)
        simp only [can_traverse_go, htake, hdrop, hrest1, hs,
          List.append_assoc, List.singleton_append]
        rw [hm] at hih ⊢
        rw [hih]
        simp only [ancestorErr, List.append_assoc, List.nil_append]

/-- Witness for C5 at a concrete context and the component list a, b. -/
theorem c5_witness :
    can_traverse ctx1 (mkPath ["a".toList, "b".toList]) =
      ancestorErr ctx1 [] ["a".toList, "b".toList] :=
  c5_can_traverse_ancestors ctx1 ["a".toList, "b".toList] (by decide) (by decide)

/-! ## C7: path translation round-trip -/

/-- C7: the round trip is broken by get_full_path, so the code, not the
claim, is at fault (the claim restates the specification's section 8
property and section 4.1 fullPath contract, which the C visibly intends
and misses: it references the undeclared identifier `path`, prepends
stale-namelen bytes of a two-byte literal over the root-most component,
and returns leftover buffer space instead of the length).  Evaluated at
the failing input — the entry for union path /a resolved via the
read-only branch /ro of ctx1, ancestry chain a then ro — get_full_path
hands back a buffer that begins slash, NUL (the mangled prepend) with
93, the leftover space, as its length, for every content of the
indeterminate bytes; the branch-root comparison therefore never matches
and get_relative_path returns -ENODATA (NoBranchMatch) instead of /a. -/
theorem c7_roundtrip_code_bug (namelen0 : Nat) (oobLit oobBuf : Nat → Char) :
    get_full_path ctx1.path_max ["a".toList, "ro".toList] namelen0 oobLit oobBuf =
        Except.ok ((93 : Int),
          ((['/', '\x00', '/', 'r', 'o', '/', 'a', '\x00'] ++
            junkList oobBuf 93).take 93 : Str)) ∧
      get_relative_path ctx1 ["a".toList, "ro".toList] namelen0 oobLit oobBuf =
        Except.error (-ENODATA) := by
  have hfp : get_full_path ctx1.path_max ["a".toList, "ro".toList] namelen0 oobLit oobBuf =
      Except.ok ((93 : Int),
        ((['/', '\x00', '/', 'r', 'o', '/', 'a', '\x00'] ++
          junkList oobBuf 93).take 93 : Str)) := rfl
  have hne1 : ((['/', '\x00', '/', 'r', 'o', '/', 'a', '\x00'] ++
      junkList oobBuf 93).take 93).take ctx1.ro_root.length ≠ ctx1.ro_root := by
    show (['/', '\x00', '/'] : Str) ≠ ctx1.ro_root
    decide
  have hne2 : ((['/', '\x00', '/', 'r', 'o', '/', 'a', '\x00'] ++
      junkList oobBuf 93).take 93).take ctx1.rw_root.length ≠ ctx1.rw_root := by
    show (['/', '\x00', '/'] : Str) ≠ ctx1.rw_root
    decide
  refine ⟨hfp, ?_⟩
  simp only [get_relative_path, hfp, if_neg hne1, if_neg hne2]

/-! ## C8: length checks happen only on the branch forms actually used -/

/-- Context with a long read-only root and a short writable root. -/
def ctx8 : Ctx :=
  { ro_root := "/readonly".toList
    rw_root := "/rw".toList
    path_max := 12
    euid := 0
    egid := 0
    getattr := fun _ _ => Except.ok ⟨511, 0, 0⟩
    lstat := fun _ => 0
    find_whiteout := fun _ => -ENOENT
    create_copyup := fun _ _ => 0 }

/-- ctx8 with a writable branch on which every stat fails. -/
def ctx8c : Ctx :=
  { ro_root := "/readonly".toList
    rw_root := "/rw".toList
    path_max := 12
    euid := 0
    egid := 0
    getattr := fun _ _ => Except.ok ⟨511, 0, 0⟩
    lstat := fun _ => -ENOENT
    find_whiteout := fun _ => -ENOENT
    create_copyup := fun _ _ => 0 }

/-- C8 counterexample: the claim as stated fails.  The read-only form of
the path exceeds the maximum, yet find_file (which finds the file in the
writable branch and never forms the read-only translation) returns
READ_WRITE after performing a stat, instead of failing with TooLong
before any call. -/
theorem c8_toolong_counterexample :
    ctx8.ro_root.length + ("/abcdef".toList).length > ctx8.path_max ∧
      (find_file ctx8 ("/abcdef".toList) 0).res = READ_WRITE ∧
      (find_file ctx8 ("/abcdef".toList) 0).trace ≠ [] := by
  decide

/-- C8 amended: a branch translation is length-checked before use, so an
overlong writable form (MUST_READ_ONLY clear) fails with TooLong before
any external call; if both forms are overlong every flag combination
fails with TooLong before any external call; and an overlong read-only
form reached on the fallback fails with TooLong after only the writable
stat, before any read-only stat, whiteout, traversal or copy-up call.
A path is not rejected for the overlong translation of a branch that
find_file never consults. -/
theorem c8_toolong_amended (ctx : Ctx) (path : Str) (flags : Nat) :
    (is_flag_set flags MUST_READ_ONLY = false →
        ctx.rw_root.length + path.length > ctx.path_max →
        (find_file ctx path flags).res = -ENAMETOOLONG ∧
          (find_file ctx path flags).trace = []) ∧
      (ctx.rw_root.length + path.length > ctx.path_max →
        ctx.ro_root.length + path.length > ctx.path_max →
        (find_file ctx path flags).res = -ENAMETOOLONG ∧
          (find_file ctx path flags).trace = []) ∧
      (is_flag_set flags MUST_READ_ONLY = false →
        is_flag_set flags MUST_READ_WRITE = false →
        ctx.rw_root.length + path.length ≤ ctx.path_max →
        ctx.lstat (make_rw_path ctx path) < 0 →
        ctx.ro_root.length + path.length > ctx.path_max →
        (find_file ctx path flags).res = -ENAMETOOLONG ∧
          (find_file ctx path flags).trace = [Ev.stat (make_rw_path ctx path)]) := by
  refine ⟨?_, ?_, ?_⟩
  · intro hflag hlen
    simp [find_file, hflag, hlen]
  · intro hlenrw hlenro
    by_cases hmr : is_flag_set flags MUST_READ_ONLY
    · by_cases hcu : is_flag_set flags CREATE_COPYUP
      · simp [find_file, hmr, find_file_tail, hcu, hlenro]
      · simp [find_file, hmr, find_file_tail, hcu, hlenro]
    · simp [find_file, hmr, hlenrw]
  · intro hflag hmw hlen hstat hlenro
    have h1 : ¬ (ctx.rw_root.length + path.length > ctx.path_max) := by omega
    by_cases hcu : is_flag_set flags CREATE_COPYUP
    · simp [find_file, hflag, h1, hstat, hmw, find_file_tail, hcu, hlenro]
    · simp [find_file, hflag, h1, hstat, hmw, find_file_tail, hcu, hlenro]

/-- Witness for the amended C8: both-overlong rejection at a concrete
context, and the fallback rejection after only the writable stat. -/
theorem c8_amended_witness :
    ((find_file ctx8 ("/abcdefghij".toList) 0).res = -ENAMETOOLONG ∧
        (find_file ctx8 ("/abcdefghij".toList) 0).trace = []) ∧
      ((find_file ctx8c ("/abcdef".toList) 0).res = -ENAMETOOLONG ∧
        (find_file ctx8c ("/abcdef".toList) 0).trace =
          [Ev.stat (make_rw_path ctx8c ("/abcdef".toList))]) :=
  ⟨(c8_toolong_amended ctx8 ("/abcdefghij".toList) 0).2.1 (by decide) (by decide),
   (c8_toolong_amended ctx8c ("/abcdef".toList) 0).2.2 (by decide) (by decide)
     (by decide) (by decide) (by decide)⟩
